import Mathlib

/-!
Verification development for the wide-field imaging approximation engine of the
algorithm-reference-library repository: the gridding/degridding engine, the
partition-and-combine execution strategies (plain 2-D, facets, w-stacking,
timeslice), the accumulator, the kernel bank builder and the task dispatch
adapter.

The repository ships only the notebook driver
(`workflows/notebooks/imaging-wterm_arlexecute.ipynb`); the library functions it
calls (`invert_list_arlexecute_workflow`, `predict_skycomponent_visibility`,
`create_awterm_convolutionfunction`, ...) are not part of the source tree, so
the core is modelled from the specification.  Machine reals are modelled by
exact rationals; the transcendental phase factors of the measurement equation
are represented by computable rational surrogates, which the specification's
design notes explicitly permit ("treat its exact form as a tunable accuracy
parameter, not a fixed contract").
-/

/-- Complex sample value, modelled as a (re, im) pair of rationals. -/
abbrev Comp : Type := ℚ × ℚ

/-- Componentwise addition of complex sample values. -/
def Comp.add (a b : Comp) : Comp := (a.1 + b.1, a.2 + b.2)

/-- Modelled from the spec: a Visibility Set sample — 3-D baseline coordinates
(u,v,w) in wavelengths, a complex value, a real weight, a timestamp and an
antenna pair ("ordered collection of samples, each with 3-D baseline
coordinates (u,v,w) in wavelengths, a complex value per polarization/channel, a
real non-negative weight, a timestamp, and an antenna pair").  A Visibility Set
is a `List VisSample`. -/
structure VisSample where
  u : ℚ
  v : ℚ
  w : ℚ
  time : ℚ
  antenna1 : ℕ
  antenna2 : ℕ
  vis : Comp
  weight : ℚ
  deriving DecidableEq, Repr

/-- Modelled from the spec: a sky component — a point source with a flux and a
direction, the direction stored as direction cosines (l, m) relative to the
phase centre (the sky↔pixel WCS conversion is an external collaborator). -/
structure SkyComponent where
  flux : ℚ
  l : ℚ
  m : ℚ
  deriving DecidableEq, Repr

/-- Modelled from the spec: the phase argument 2π(ul + vm + w(n-1)) of the
measurement equation at a sample, with the small-angle expansion
(n - 1) ≈ -(l² + m²)/2 for the w-term. -/
def visPhase (c : SkyComponent) (s : VisSample) : ℚ :=
  s.u * c.l + s.v * c.m - s.w * (c.l ^ 2 + c.m ^ 2) / 2

/-- Modelled from the spec: the complex phase factor e^{-2πiθ} is
transcendental, so it is represented by the computable rational surrogate
θ ↦ (1 - θ²/2, -θ), exact at θ = 0 (a source at the phase centre).  The spec's
design notes direct that the exact transcendental forms be treated as tunable
accuracy parameters rather than fixed contracts. -/
def phaseFactor (θ : ℚ) : Comp := (1 - θ ^ 2 / 2, -θ)

/-- Modelled from the spec: the predicted visibility contribution of one sky
component at one sample — flux times the phase factor of the measurement
equation. -/
def component_vis (c : SkyComponent) (s : VisSample) : Comp :=
  ((phaseFactor (visPhase c s)).1 * c.flux, (phaseFactor (visPhase c s)).2 * c.flux)

/-- Modelled from the spec: `predict_skycomponent_visibility` loops over the
components, adding each component's predicted contribution onto the visibility
set's existing per-sample complex values in place (the notebook driver relies
on this by zeroing `vt.data['vis']` before the call); all other sample fields
are left untouched, and the updated set is returned. -/
def predict_skycomponent_visibility (vt : List VisSample)
    (comps : List SkyComponent) : List VisSample :=
  comps.foldl
    (fun acc c => acc.map (fun s => { s with vis := Comp.add s.vis (component_vis c s) }))
    vt

/-- The summed predicted contribution of a list of components at a sample. -/
def component_sum (comps : List SkyComponent) (s : VisSample) : Comp :=
  comps.foldl (fun a c => Comp.add a (component_vis c s)) ((0 : ℚ), (0 : ℚ))

/-- A visibility set with every complex value zeroed, as the notebook driver
does with `vt.data['vis'] *= 0.0`. -/
def zeroVis (vt : List VisSample) : List VisSample :=
  vt.map (fun s => { s with vis := ((0 : ℚ), (0 : ℚ)) })

/-- Modelled from the spec: the error taxonomy of the core (configuration and
shape errors fail fast; numerical degeneracy is not an error). -/
inductive CoreError where
  | configurationError
  | shapeMismatchError
  deriving DecidableEq, Repr

/-- Modelled from the spec: an image template — pixel count per axis and cell
size; the pixel-to-sky coordinate mapping and phase centre are carried by
external collaborators (WCS) and play no role in the core's arithmetic. -/
structure ImageTemplate where
  npixel : ℕ
  cellsize : ℚ
  deriving DecidableEq, Repr

/-- Modelled from the spec: an Image — a regular 2-D grid of real-valued
samples.  The grid is modelled as a total function on pixel coordinates; every
image produced by the core is zero outside the square [0, npixel)². -/
@[ext]
structure Image where
  npixel : ℕ
  cellsize : ℚ
  data : ℕ → ℕ → ℚ

/-- The all-zero image over a template. -/
def zeroImage (tmpl : ImageTemplate) : Image :=
  { npixel := tmpl.npixel, cellsize := tmpl.cellsize, data := fun _ _ => 0 }

/-- Bounds-checked accumulation of a value onto one pixel of an image; a write
outside the pixel grid is dropped, as an array write in the source would be
out of bounds. -/
def Image.addAt (img : Image) (x y : ℕ) (q : ℚ) : Image :=
  { img with
    data := fun a b =>
      if a = x ∧ b = y ∧ x < img.npixel ∧ y < img.npixel then img.data a b + q
      else img.data a b }

/-- Pointwise sum of two images over the first image's geometry. -/
def Image.addImage (a b : Image) : Image :=
  { a with data := fun x y => a.data x y + b.data x y }

/-- Pointwise scaling of an image. -/
def Image.scale (q : ℚ) (img : Image) : Image :=
  { img with data := fun x y => q * img.data x y }

/-- Modelled from the spec: a Convolution Kernel Bank — an indexed set of
discrete 2-D kernels tagged by w-plane, with an oversampling factor and a
bounded pixel support radius.  The kernel table is a function from
(plane, dx, dy) to a value. -/
structure KernelBank where
  nw : ℕ
  wstep : ℚ
  oversampling : ℕ
  support : ℕ
  values : ℕ → ℤ → ℤ → ℚ

/-- Modelled from the spec: the padded working grid is the image grid enlarged
by the default padding factor 2. -/
def paddedGridWidth (tmpl : ImageTemplate) : ℕ := 2 * tmpl.npixel

/-- Modelled from the spec: the Kernel Bank Builder
`create_awterm_convolutionfunction`.  It rejects (with `ConfigurationError`) a
non-positive oversampling factor, a non-positive plane count, and a support
radius that would exceed the padded working grid size; for inputs meeting
these preconditions it deterministically constructs the bank.  The kernel
values compose the w-term with an anti-aliasing prototype; their exact
transcendental form is implementation-defined per the spec's design notes and
is represented by a computable rational surrogate. -/
def create_awterm_convolutionfunction (tmpl : ImageTemplate) (nw : ℤ) (wstep : ℚ)
    (oversampling : ℤ) (support : ℕ) : Except CoreError KernelBank :=
  if oversampling ≤ 0 then .error .configurationError
  else if nw ≤ 0 then .error .configurationError
  else if paddedGridWidth tmpl < support then .error .configurationError
  else
    .ok
      { nw := nw.toNat, wstep := wstep, oversampling := oversampling.toNat,
        support := support,
        values := fun p dx dy =>
          1 / (1 + ((p : ℚ) * wstep) ^ 2 + ((dx : ℚ) ^ 2 + (dy : ℚ) ^ 2)) }

/-- Modelled from the spec: a sample lies inside the padded working grid iff
its (u, v) fall within the grid's uv extent.  The uv extent of a grid of n
pixels of size c is n·(1/(n·c)) = 1/c across — independent of the pixel count,
so padding (which refines the uv cell) does not change which samples fall
inside. -/
def inGrid (cellsize : ℚ) (s : VisSample) : Bool :=
  decide (-(1 / (2 * cellsize)) ≤ s.u) && decide (s.u < 1 / (2 * cellsize)) &&
    decide (-(1 / (2 * cellsize)) ≤ s.v) && decide (s.v < 1 / (2 * cellsize))

/-- Modelled from the spec: the uv grid coordinate of a baseline coordinate
x, at duv = 1/(npixel·cellsize) per cell, offset to the grid centre. -/
def gridCoord (npixel : ℕ) (cellsize : ℚ) (x : ℚ) : ℤ :=
  ⌊x * (npixel : ℚ) * cellsize⌋ + (npixel : ℤ) / 2

/-- Clamp an integer grid coordinate into [0, npixel). -/
def clampIndex (npixel : ℕ) (i : ℤ) : ℕ := min (npixel - 1) i.toNat

/-- Modelled from the spec: placement of one visibility sample's contribution
onto the image grid — direct placement at its grid cell when no kernel bank is
given, convolutional placement spread over the kernel support (at the sample's
w-plane; the sub-pixel oversampled offset selection is absorbed into the
kernel surrogate) when a bank is present. -/
def gridOne (gcfcf : Option KernelBank) (img : Image) (s : VisSample) : Image :=
  let ix := clampIndex img.npixel (gridCoord img.npixel img.cellsize s.u)
  let iy := clampIndex img.npixel (gridCoord img.npixel img.cellsize s.v)
  let contribution := s.weight * s.vis.1
  match gcfcf with
  | none => img.addAt ix iy contribution
  | some b =>
      let plane := min (b.nw - 1) (⌊s.w / b.wstep⌋).toNat
      (List.range (2 * b.support + 1)).foldl
        (fun acc1 dx =>
          (List.range (2 * b.support + 1)).foldl
            (fun acc2 dy =>
              acc2.addAt (clampIndex img.npixel ((ix : ℤ) + (dx : ℤ) - (b.support : ℤ)))
                (clampIndex img.npixel ((iy : ℤ) + (dy : ℤ) - (b.support : ℤ)))
                (b.values plane ((dx : ℤ) - (b.support : ℤ)) ((dy : ℤ) - (b.support : ℤ)) *
                  contribution))
            acc1)
        img

/-- Modelled from the spec: the Gridding Engine's
`invert(visibilities, image_template, kernel_bank?) → (image, sum_of_weights)`.
Each sample's contribution is accumulated onto the image grid and its weight
onto the sum of weights; a sample whose (u,v) fall entirely outside the padded
working grid is skipped — it contributes to neither, and no error is raised
(the operation is total). -/
def invert_2d (vs : List VisSample) (tmpl : ImageTemplate)
    (gcfcf : Option KernelBank) : Image × ℚ :=
  vs.foldl
    (fun acc s =>
      if inGrid tmpl.cellsize s then (gridOne gcfcf acc.1 s, acc.2 + s.weight) else acc)
    (zeroImage tmpl, 0)

/-- Modelled from the spec: a facet Partition Descriptor — a pixel sub-region
of the image, identified by its grid position (ix, iy) and its side length in
pixels. -/
structure FacetDesc where
  ix : ℕ
  iy : ℕ
  size : ℕ
  deriving DecidableEq, Repr

/-- Membership of a pixel in a facet's designated sub-region. -/
def inFacet (d : FacetDesc) (x y : ℕ) : Prop :=
  d.ix * d.size ≤ x ∧ x < (d.ix + 1) * d.size ∧
    d.iy * d.size ≤ y ∧ y < (d.iy + 1) * d.size

instance (d : FacetDesc) (x y : ℕ) : Decidable (inFacet d x y) := by
  unfold inFacet; infer_instance

/-- Modelled from the spec: the Facets partitioning strategy divides the image
template into an N×N grid of non-overlapping pixel regions; N must evenly
divide the image's pixel dimension, otherwise `ConfigurationError` is raised
before any partition is dispatched. -/
def facet_partitions (facets : ℕ) (tmpl : ImageTemplate) :
    Except CoreError (List FacetDesc) :=
  if facets ∣ tmpl.npixel then
    .ok
      (((List.range facets).map
          (fun iy => (List.range facets).map
            (fun ix => FacetDesc.mk ix iy (tmpl.npixel / facets)))).flatten)
  else .error .configurationError

/-- The facet's image subset template: the sub-region's pixel count at the
parent's cell size (the phase centre shift to the facet centre is carried by
the sub-template's external coordinate mapping). -/
def facetSubTemplate (d : FacetDesc) (tmpl : ImageTemplate) : ImageTemplate :=
  { npixel := d.size, cellsize := tmpl.cellsize }

/-- Modelled from the spec: facet re-assembly — each partial image's pixel
values are placed into the facet's designated sub-region of the full-size
output image (regions are disjoint, so no additive overlap). -/
def placeFacet (out : Image) (d : FacetDesc) (p : Image) : Image :=
  { out with
    data := fun x y =>
      if inFacet d x y then p.data (x - d.ix * d.size) (y - d.iy * d.size)
      else out.data x y }

/-- Modelled from the spec: the Accumulator for the facets strategy — the final
image is assembled by placing each facet's partial image into its sub-region of
a full-size output image; the sums of weights are concatenated/labelled per
facet, not summed. -/
def combine_facets (tmpl : ImageTemplate) (parts : List (FacetDesc × (Image × ℚ))) :
    Image × List ℚ :=
  (parts.foldl (fun acc p => placeFacet acc p.1 p.2.1) (zeroImage tmpl),
    parts.map (fun p => p.2.2))

/-- Modelled from the spec: invert under the facets strategy — partition, run
the engine on every facet's sub-template against the full visibility set (all
baselines contribute to every facet), and re-assemble.  A non-divisible facet
count fails before any partition is dispatched. -/
def invert_facets (facets : ℕ) (vs : List VisSample) (tmpl : ImageTemplate)
    (gcfcf : Option KernelBank) : Except CoreError (Image × List ℚ) :=
  (facet_partitions facets tmpl).map
    (fun descs =>
      combine_facets tmpl
        (descs.map (fun d => (d, invert_2d vs (facetSubTemplate d tmpl) gcfcf))))

/-- Modelled from the spec: w-stacking sorts the samples by w-value before
binning them into contiguous ranges. -/
def sortByW (vs : List VisSample) : List VisSample :=
  vs.mergeSort (fun a b => a.w ≤ b.w)

/-- Timeslice partitioning bins the samples by timestamp. -/
def sortByTime (vs : List VisSample) : List VisSample :=
  vs.mergeSort (fun a b => a.time ≤ b.time)

/-- Modelled from the spec: split a sorted sample list into n contiguous
slices; when the data does not divide evenly the final partition absorbs the
remainder. -/
def splitSlices (n : ℕ) (l : List VisSample) : List (List VisSample) :=
  match n with
  | 0 => []
  | 1 => [l]
  | m + 2 =>
      l.take (l.length / (m + 2)) :: splitSlices (m + 1) (l.drop (l.length / (m + 2)))

/-- Modelled from the spec: the representative w-value of a w-bin (its mean). -/
def wRepresentative (part : List VisSample) : ℚ :=
  (part.map (fun s => s.w)).sum / (part.length : ℚ)

/-- Modelled from the spec: the w-dependent image-plane correction applied to a
w-bin's partial image before summation; its transcendental phase-ramp form is
implementation-defined and is modelled by a pixelwise scaling (exactly 1 at
w = 0) that leaves the sum of weights untouched. -/
def wCorrection (wrep : ℚ) (img : Image) : Image :=
  Image.scale (1 / (1 + wrep ^ 2)) img

/-- Sum of a list of images over a template's geometry. -/
def sumImages (tmpl : ImageTemplate) (imgs : List Image) : Image :=
  imgs.foldl Image.addImage (zeroImage tmpl)

/-- Modelled from the spec: the Accumulator for w-stacking — the final image is
the elementwise sum of the partials after each has had its w-dependent
correction applied; the final sum of weights is the additive combination of
the partial sums of weights. -/
def combine_wstack (tmpl : ImageTemplate) (parts : List (ℚ × (Image × ℚ))) :
    Image × ℚ :=
  (sumImages tmpl (parts.map (fun p => wCorrection p.1 p.2.1)),
    (parts.map (fun p => p.2.2)).foldl (· + ·) 0)

/-- Modelled from the spec: invert under the w-stacking strategy — sort by w,
bin into `vis_slices` contiguous ranges, image each bin against the full image
template, and combine additively with the per-bin w correction. -/
def invert_wstack (vis_slices : ℕ) (vs : List VisSample) (tmpl : ImageTemplate)
    (gcfcf : Option KernelBank) : Image × ℚ :=
  combine_wstack tmpl
    ((splitSlices vis_slices (sortByW vs)).map
      (fun part => (wRepresentative part, invert_2d part tmpl gcfcf)))

/-- The timeslice working template: the caller-specified padding factor
enlarges the working grid. -/
def paddedTemplate (padding : ℕ) (tmpl : ImageTemplate) : ImageTemplate :=
  { npixel := padding * tmpl.npixel, cellsize := tmpl.cellsize }

/-- Modelled from the spec: the reprojection of a timeslice snapshot's padded
partial image back onto the common output geometry, modelled as the centre
crop of the padded grid. -/
def reproject (tmpl : ImageTemplate) (img : Image) : Image :=
  { npixel := tmpl.npixel, cellsize := tmpl.cellsize,
    data := fun x y =>
      img.data (x + (img.npixel - tmpl.npixel) / 2) (y + (img.npixel - tmpl.npixel) / 2) }

/-- Modelled from the spec: the Accumulator for timeslice — the final image is
the elementwise sum of the partials after each snapshot has been reprojected to
the common phase centre; the final sum of weights is the additive combination
of the partial sums of weights. -/
def combine_timeslice (tmpl : ImageTemplate) (parts : List (Image × ℚ)) :
    Image × ℚ :=
  (sumImages tmpl (parts.map (fun p => reproject tmpl p.1)),
    (parts.map (fun p => p.2)).foldl (· + ·) 0)

/-- Modelled from the spec: invert under the timeslice strategy — bin the
samples by timestamp into `vis_slices` slices, image each against the padded
working template, reproject and combine additively. -/
def invert_timeslice (vis_slices : ℕ) (padding : ℕ) (vs : List VisSample)
    (tmpl : ImageTemplate) (gcfcf : Option KernelBank) : Image × ℚ :=
  combine_timeslice tmpl
    ((splitSlices vis_slices (sortByTime vs)).map
      (fun part => invert_2d part (paddedTemplate padding tmpl) gcfcf))

/-- Modelled from the spec: the closed tagged variant of partitioning contexts
selected by the driver (`"2d"`, `"facets"`, `"wstack"`, `"timeslice"`), each
carrying its own typed parameters, as the spec's design notes direct. -/
inductive Context where
  | plain
  | facets (n : ℕ)
  | wstack (vis_slices : ℕ)
  | timeslice (vis_slices : ℕ) (padding : ℕ)
  deriving DecidableEq, Repr

/-- Modelled from the spec: one invert request under a selected partitioning
context.  The sum-of-weights component is a per-partition list for the facets
strategy (labelled per facet, not summed) and the singleton additive total for
the other strategies. -/
def invert_context (ctx : Context) (vs : List VisSample) (tmpl : ImageTemplate)
    (gcfcf : Option KernelBank) : Except CoreError (Image × List ℚ) :=
  match ctx with
  | .plain => .ok ((invert_2d vs tmpl gcfcf).1, [(invert_2d vs tmpl gcfcf).2])
  | .facets n => invert_facets n vs tmpl gcfcf
  | .wstack n => .ok ((invert_wstack n vs tmpl gcfcf).1, [(invert_wstack n vs tmpl gcfcf).2])
  | .timeslice n p =>
      .ok ((invert_timeslice n p vs tmpl gcfcf).1, [(invert_timeslice n p vs tmpl gcfcf).2])

/-- Modelled from the spec: the list-level workflow entry point
`invert_list_arlexecute_workflow` — one invert per co-indexed
(visibility set, image template) pair of the input lists. -/
def invert_list_arlexecute_workflow (ctx : Context) (vis_list : List (List VisSample))
    (model_list : List ImageTemplate) (gcfcf : Option KernelBank) :
    List (Except CoreError (Image × List ℚ)) :=
  List.zipWith (fun vs tmpl => invert_context ctx vs tmpl gcfcf) vis_list model_list

/-- Modelled from the spec: the Task Dispatch Adapter tags each submitted unit
of work with its original partition index (tagging starts at k). -/
def adapter_tag {α : Type} (k : ℕ) : List α → List (ℕ × α)
  | [] => []
  | x :: xs => (k, x) :: adapter_tag (k + 1) xs

/-- Modelled from the spec: the Task Dispatch Adapter collects the completed
(index, result) pairs — in whatever order the executor delivered them — and
reorders them against the original partition index, not arrival order, before
handing them to the Accumulator. -/
def adapter_collect {α : Type} (n : ℕ) (completed : List (ℕ × α)) : List α :=
  (List.range n).filterMap
    (fun i => (completed.find? (fun r => r.1 == i)).map (fun r => r.2))

/-- The total weight of the samples of a visibility set that fall inside the
working grid at a given cell size — the reference value for sum-of-weights
bookkeeping. -/
def sumwtOf (cellsize : ℚ) (vs : List VisSample) : ℚ :=
  ((vs.filter (fun s => inGrid cellsize s)).map (fun s => s.weight)).sum

/-- The 512-pixel, 0.001-radian-cell template of the notebook driver. -/
def demoTemplate : ImageTemplate := { npixel := 512, cellsize := 1 / 1000 }

/-- A concrete sample whose (u, v) fall outside `demoTemplate`'s working grid
(the grid half-extent is 1/(2·0.001) = 500 wavelengths). -/
def outSample : VisSample :=
  { u := 1000, v := 0, w := 0, time := 0, antenna1 := 0, antenna2 := 1,
    vis := ((0 : ℚ), (0 : ℚ)), weight := 1 }

/-- A concrete in-grid sample. -/
def demoSample : VisSample :=
  { u := 1, v := 2, w := 3, time := 0, antenna1 := 0, antenna2 := 1,
    vis := ((1 : ℚ), (0 : ℚ)), weight := 2 }

/-- Two concrete w-stacking partial results (representative w, (image, sumwt)). -/
def demoPartials : List (ℚ × (Image × ℚ)) :=
  [(0, (zeroImage demoTemplate, 1)),
    (5, (Image.scale 2 (zeroImage demoTemplate), 2))]

/-- The two tagged partials of `demoPartials` delivered in reversed
(out-of-submission) completion order. -/
def demoCompleted : List (ℕ × (ℚ × (Image × ℚ))) :=
  [(1, (5, (Image.scale 2 (zeroImage demoTemplate), 2))),
    (0, (0, (zeroImage demoTemplate, 1)))]

theorem comp_add_eq (a b : Comp) : Comp.add a b = a + b := rfl

theorem comp_zero_pair : (((0 : ℚ), (0 : ℚ)) : Comp) = 0 := rfl

theorem component_sum_from (comps : List SkyComponent) (s : VisSample) (a : Comp) :
    comps.foldl (fun x c => Comp.add x (component_vis c s)) a =
      a + component_sum comps s := by
  induction comps generalizing a with
  | nil => simp [component_sum]
  | cons c cs ih =>
      simp only [List.foldl_cons, ih]
      conv_rhs => rw [component_sum, List.foldl_cons, ih]
      simp only [comp_add_eq, comp_zero_pair, zero_add, add_assoc]

theorem component_sum_cons (c : SkyComponent) (cs : List SkyComponent) (s : VisSample) :
    component_sum (c :: cs) s = component_vis c s + component_sum cs s := by
  conv_lhs => rw [component_sum, List.foldl_cons, component_sum_from]
  simp only [comp_add_eq, comp_zero_pair, zero_add]

theorem predict_vis_values (comps : List SkyComponent) (vt : List VisSample) :
    (predict_skycomponent_visibility vt comps).map (fun s => s.vis) =
      vt.map (fun s => s.vis + component_sum comps s) := by
  induction comps generalizing vt with
  | nil => simp [predict_skycomponent_visibility, component_sum]
  | cons c cs ih =>
      show (predict_skycomponent_visibility
          (vt.map (fun s => { s with vis := Comp.add s.vis (component_vis c s) })) cs).map
            (fun s => s.vis) = _
      rw [ih, List.map_map]
      apply List.map_congr_left
      intro s _
      show Comp.add s.vis (component_vis c s) + _ = _
      rw [component_sum_cons, comp_add_eq, add_assoc]
      rfl

theorem predict_nonvis_fields (comps : List SkyComponent) (vt : List VisSample) :
    (predict_skycomponent_visibility vt comps).map
        (fun s => (s.u, s.v, s.w, s.time, s.antenna1, s.antenna2, s.weight)) =
      vt.map (fun s => (s.u, s.v, s.w, s.time, s.antenna1, s.antenna2, s.weight)) := by
  induction comps generalizing vt with
  | nil => rfl
  | cons c cs ih =>
      show (predict_skycomponent_visibility
          (vt.map (fun s => { s with vis := Comp.add s.vis (component_vis c s) })) cs).map
            _ = _
      rw [ih, List.map_map]
      rfl

/-- Claim C10: `predict_skycomponent_visibility` accumulates onto the
visibility set's existing complex values rather than overwriting them — the
values after the call equal the values before the call plus the sum of the
components' predicted visibilities — and a caller who first zeroes the values
(as the driver does with `vt.data['vis'] *= 0.0`) obtains exactly the
components' summed visibilities. -/
theorem predict_accumulates_in_place (vt : List VisSample) (comps : List SkyComponent) :
    (predict_skycomponent_visibility vt comps).map (fun s => s.vis) =
      vt.map (fun s => s.vis + component_sum comps s) ∧
    (predict_skycomponent_visibility (zeroVis vt) comps).map (fun s => s.vis) =
      vt.map (fun s => component_sum comps s) := by
  refine ⟨predict_vis_values comps vt, ?_⟩
  rw [predict_vis_values, zeroVis, List.map_map]
  apply List.map_congr_left
  intro s _
  show (((0 : ℚ), (0 : ℚ)) : Comp) + _ = _
  rw [comp_zero_pair, zero_add]
  rfl

theorem splitSlices_flatten (n : ℕ) (hn : 1 ≤ n) (l : List VisSample) :
    (splitSlices n l).flatten = l := by
  induction n generalizing l with
  | zero => omega
  | succ m ih =>
      match m with
      | 0 => simp [splitSlices]
      | k + 1 =>
          show (l.take (l.length / (k + 2)) :: splitSlices (k + 1) (l.drop (l.length / (k + 2)))).flatten = l
          rw [List.flatten_cons, ih (by omega)]
          exact List.take_append_drop _ l

theorem sortByW_perm (vs : List VisSample) : (sortByW vs).Perm vs :=
  List.mergeSort_perm vs _

theorem sortByTime_perm (vs : List VisSample) : (sortByTime vs).Perm vs :=
  List.mergeSort_perm vs _

/-- Claim C9 is refuted as stated: `predict_skycomponent_visibility` does
change the input set's complex values — for a unit sample with zero value and
a single flux-100 component at the phase centre, the value after the call is
(100, 0), not the original (0, 0). -/
theorem predict_mutates_vis_counterexample :
    (predict_skycomponent_visibility
        [{ u := 0, v := 0, w := 0, time := 0, antenna1 := 0, antenna2 := 1,
           vis := ((0 : ℚ), (0 : ℚ)), weight := 1 }]
        [{ flux := 100, l := 0, m := 0 }]).map (fun s => s.vis) ≠
      [(((0 : ℚ), (0 : ℚ)) : Comp)] := by
  simp only [predict_skycomponent_visibility, List.foldl_cons, List.foldl_nil,
    List.map_cons, List.map_nil, component_vis, visPhase, phaseFactor, Comp.add]
  norm_num

/-- Claim C9 (amended): the non-mutation claim holds for every sample field
except the complex values under predict-into-visibility: uvw coordinates,
timestamps, antenna pairs (and weights) are unchanged by
`predict_skycomponent_visibility`, and the w-stacking and timeslice
partitioning strategies only regroup the original samples (their partitions
flatten to a permutation of the input set, every sample unchanged).  The
complex values, however, are updated in place by
`predict_skycomponent_visibility` (claim C10); invert never returns a modified
set, and every operation of the model is a pure function, so no partition
computation mutates a Visibility Set, Image template, or Kernel Bank shared
with sibling partitions. -/
theorem visibility_set_non_mutation (vt vs : List VisSample)
    (comps : List SkyComponent) (n : ℕ) (hn : 1 ≤ n) :
    (predict_skycomponent_visibility vt comps).map
        (fun s => (s.u, s.v, s.w, s.time, s.antenna1, s.antenna2, s.weight)) =
      vt.map (fun s => (s.u, s.v, s.w, s.time, s.antenna1, s.antenna2, s.weight)) ∧
    ((splitSlices n (sortByW vs)).flatten).Perm vs ∧
    ((splitSlices n (sortByTime vs)).flatten).Perm vs := by
  refine ⟨predict_nonvis_fields comps vt, ?_, ?_⟩
  · rw [splitSlices_flatten n hn]; exact sortByW_perm vs
  · rw [splitSlices_flatten n hn]; exact sortByTime_perm vs

/-- Concrete instance of the amended claim C9: hypothesis 1 ≤ 1 discharged at
the one-slice partitioning of a one-sample set. -/
theorem visibility_set_non_mutation_witness :
    1 ≤ 1 ∧
      ((predict_skycomponent_visibility [demoSample] []).map
          (fun s => (s.u, s.v, s.w, s.time, s.antenna1, s.antenna2, s.weight)) =
        [demoSample].map
          (fun s => (s.u, s.v, s.w, s.time, s.antenna1, s.antenna2, s.weight)) ∧
      ((splitSlices 1 (sortByW [demoSample])).flatten).Perm [demoSample] ∧
      ((splitSlices 1 (sortByTime [demoSample])).flatten).Perm [demoSample]) :=
  ⟨by decide, visibility_set_non_mutation [demoSample] [demoSample] [] 1 (by decide)⟩

/-- Claim C7: a visibility sample whose (u, v) fall entirely outside the padded
working grid is skipped by invert — it contributes neither to the returned
image nor to the returned sum of weights, while all remaining samples are
processed exactly as without it.  No error is raised: `invert_2d` is a total
function, so the claim's "no error" part holds by typing. -/
theorem invert_drops_out_of_grid_samples (vs1 vs2 : List VisSample) (s : VisSample)
    (tmpl : ImageTemplate) (gcfcf : Option KernelBank)
    (h : inGrid tmpl.cellsize s = false) :
    invert_2d (vs1 ++ s :: vs2) tmpl gcfcf = invert_2d (vs1 ++ vs2) tmpl gcfcf := by
  unfold invert_2d
  rw [List.foldl_append, List.foldl_append, List.foldl_cons, h]
  simp

/-- Concrete instance of claim C7: the sample at u = 1000 wavelengths lies
outside the 500-wavelength half-extent of the notebook's 0.001-cellsize grid
and is dropped. -/
theorem invert_drops_out_of_grid_samples_witness :
    inGrid demoTemplate.cellsize outSample = false ∧
      invert_2d [demoSample, outSample] demoTemplate none =
        invert_2d [demoSample] demoTemplate none :=
  ⟨by norm_num [inGrid, outSample, demoTemplate],
    invert_drops_out_of_grid_samples [demoSample] [] outSample demoTemplate none
      (by norm_num [inGrid, outSample, demoTemplate])⟩

/-- Claim C8: invert returns the pair of the dirty image and the accumulated
sum of weights, and the list-level workflow entry point, applied to length-1
visibility and template lists, returns the length-1 list whose single element
is that result (the sum of weights carried as the singleton total for the
plain strategy). -/
theorem invert_result_shape (ctx : Context) (vs : List VisSample)
    (tmpl : ImageTemplate) (gcfcf : Option KernelBank) :
    invert_list_arlexecute_workflow ctx [vs] [tmpl] gcfcf =
        [invert_context ctx vs tmpl gcfcf] ∧
      invert_context .plain vs tmpl gcfcf =
        .ok ((invert_2d vs tmpl gcfcf).1, [(invert_2d vs tmpl gcfcf).2]) :=
  ⟨rfl, rfl⟩

/-- Claim C6: the Kernel Bank Builder succeeds exactly when the oversampling
factor and plane count are positive and the requested support radius does not
exceed the padded working grid size, and it rejects every other input with
`ConfigurationError`. -/
theorem kernel_bank_construction_iff (tmpl : ImageTemplate) (nw : ℤ) (wstep : ℚ)
    (oversampling : ℤ) (support : ℕ) :
    ((∃ b, create_awterm_convolutionfunction tmpl nw wstep oversampling support = .ok b) ↔
        (0 < oversampling ∧ 0 < nw ∧ support ≤ paddedGridWidth tmpl)) ∧
      (create_awterm_convolutionfunction tmpl nw wstep oversampling support =
          .error .configurationError ↔
        ¬(0 < oversampling ∧ 0 < nw ∧ support ≤ paddedGridWidth tmpl)) := by
  unfold create_awterm_convolutionfunction
  split_ifs with h1 h2 h3
  · exact ⟨iff_of_false (by simp) (by omega), iff_of_true rfl (by omega)⟩
  · exact ⟨iff_of_false (by simp) (by omega), iff_of_true rfl (by omega)⟩
  · exact ⟨iff_of_false (by simp) (by omega), iff_of_true rfl (by omega)⟩
  · exact ⟨iff_of_true ⟨_, rfl⟩ (by omega), iff_of_false (by simp) (by omega)⟩

theorem facet_region_determined (d1 d2 : FacetDesc) (h : d1.size = d2.size)
    (x y : ℕ) (h1 : inFacet d1 x y) (h2 : inFacet d2 x y) : d1 = d2 := by
  obtain ⟨a1, b1, c1, e1⟩ := h1
  obtain ⟨a2, b2, c2, e2⟩ := h2
  rcases Nat.eq_zero_or_pos d1.size with hs | hs
  · rw [hs, Nat.mul_zero] at b1
    exact absurd b1 (Nat.not_lt_zero x)
  · have hx1 : x / d1.size = d1.ix := Nat.div_eq_of_lt_le a1 b1
    have hy1 : y / d1.size = d1.iy := Nat.div_eq_of_lt_le c1 e1
    have hx2 : x / d2.size = d2.ix := Nat.div_eq_of_lt_le a2 b2
    have hy2 : y / d2.size = d2.iy := Nat.div_eq_of_lt_le c2 e2
    rcases d1 with ⟨ix1, iy1, s1⟩
    rcases d2 with ⟨ix2, iy2, s2⟩
    dsimp at h hx1 hy1 hx2 hy2
    subst h
    subst hx1
    subst hy1
    subst hx2
    subst hy2
    rfl

/-- Claim C5: when the facet count N evenly divides the image's pixel
dimension, the facets strategy produces exactly N² partitions whose pixel
regions are pairwise non-overlapping; when it does not, `ConfigurationError`
is raised before any partition is dispatched (`invert_facets` fails without
running the engine) — in particular facets = 3 on a 512-pixel image is
rejected (see the witness). -/
theorem facet_divisibility (N : ℕ) (tmpl : ImageTemplate) :
    (N ∣ tmpl.npixel →
      ∃ l, facet_partitions N tmpl = .ok l ∧ l.length = N * N ∧
        ∀ d1 ∈ l, ∀ d2 ∈ l, d1 ≠ d2 → ∀ x y : ℕ, ¬(inFacet d1 x y ∧ inFacet d2 x y)) ∧
    (¬N ∣ tmpl.npixel →
      facet_partitions N tmpl = .error .configurationError ∧
        ∀ (vs : List VisSample) (g : Option KernelBank),
          invert_facets N vs tmpl g = .error .configurationError) := by
  constructor
  · intro h
    refine ⟨_, by rw [facet_partitions, if_pos h], ?_, ?_⟩
    · rw [List.length_flatten, List.map_map]
      have hconst :
          (List.length ∘ fun iy : ℕ =>
            List.map (fun ix => FacetDesc.mk ix iy (tmpl.npixel / N)) (List.range N)) =
            fun _ => N := by
        funext iy
        simp
      rw [hconst, List.map_const', List.sum_replicate, List.length_range, smul_eq_mul]
    · intro d1 hd1 d2 hd2 hne x y hxy
      simp only [List.mem_flatten, List.mem_map, List.mem_range] at hd1 hd2
      obtain ⟨l1, ⟨iy1, hiy1, rfl⟩, hd1⟩ := hd1
      simp only [List.mem_map, List.mem_range] at hd1
      obtain ⟨ix1, hix1, rfl⟩ := hd1
      obtain ⟨l2, ⟨iy2, hiy2, rfl⟩, hd2⟩ := hd2
      simp only [List.mem_map, List.mem_range] at hd2
      obtain ⟨ix2, hix2, rfl⟩ := hd2
      exact hne (facet_region_determined _ _ rfl x y hxy.1 hxy.2)
  · intro h
    have hp : facet_partitions N tmpl = .error .configurationError := by
      rw [facet_partitions, if_neg h]
    exact ⟨hp, fun vs g => by rw [invert_facets, hp]; rfl⟩

/-- Concrete instances of claim C5: facets = 4 on the notebook's 512-pixel
template yields 16 disjoint partitions, and facets = 3 on the same template
raises `ConfigurationError` before dispatch. -/
theorem facet_divisibility_witness :
    (∃ l, facet_partitions 4 demoTemplate = .ok l ∧ l.length = 4 * 4 ∧
        ∀ d1 ∈ l, ∀ d2 ∈ l, d1 ≠ d2 → ∀ x y : ℕ, ¬(inFacet d1 x y ∧ inFacet d2 x y)) ∧
      (facet_partitions 3 demoTemplate = .error .configurationError ∧
        ∀ (vs : List VisSample) (g : Option KernelBank),
          invert_facets 3 vs demoTemplate g = .error .configurationError) :=
  ⟨(facet_divisibility 4 demoTemplate).1 (by decide),
    (facet_divisibility 3 demoTemplate).2 (by decide)⟩

theorem invert_2d_foldl_sumwt (vs : List VisSample) (tmpl : ImageTemplate)
    (gcfcf : Option KernelBank) (acc : Image × ℚ) :
    (vs.foldl
        (fun acc s =>
          if inGrid tmpl.cellsize s then (gridOne gcfcf acc.1 s, acc.2 + s.weight) else acc)
        acc).2 = acc.2 + sumwtOf tmpl.cellsize vs := by
  induction vs generalizing acc with
  | nil => simp [sumwtOf]
  | cons s vs ih =>
      rw [List.foldl_cons, ih]
      by_cases h : inGrid tmpl.cellsize s
      · simp [h, sumwtOf, add_assoc]
      · simp [h, sumwtOf]

theorem invert_2d_sumwt (vs : List VisSample) (tmpl : ImageTemplate)
    (gcfcf : Option KernelBank) :
    (invert_2d vs tmpl gcfcf).2 = sumwtOf tmpl.cellsize vs := by
  rw [invert_2d, invert_2d_foldl_sumwt, zero_add]

theorem sumwtOf_append (c : ℚ) (a b : List VisSample) :
    sumwtOf c (a ++ b) = sumwtOf c a + sumwtOf c b := by
  simp [sumwtOf, List.filter_append]

theorem sumwtOf_perm (c : ℚ) {a b : List VisSample} (h : a.Perm b) :
    sumwtOf c a = sumwtOf c b :=
  ((h.filter _).map _).sum_eq

theorem sumwtOf_flatten (c : ℚ) (L : List (List VisSample)) :
    (L.map (sumwtOf c)).sum = sumwtOf c L.flatten := by
  induction L with
  | nil => simp [sumwtOf]
  | cons l L ih => rw [List.map_cons, List.sum_cons, ih, List.flatten_cons, sumwtOf_append]

theorem foldl_add_eq_sum (l : List ℚ) : l.foldl (· + ·) 0 = l.sum := by
  rw [List.sum_eq_foldl]

/-- Claim C3: the final sum of weights produced by invert under the w-stacking
or timeslice strategy with any positive number of partitions equals the final
sum of weights produced by the plain 2-D strategy on the same data — the
partial sums of weights are combined additively across partitions, and since
the model is exact over ℚ the agreement is exact rather than merely within
floating-point tolerance. -/
theorem partition_sumwt_invariance (n pad : ℕ) (vs : List VisSample)
    (tmpl : ImageTemplate) (gcfcf : Option KernelBank) (hn : 1 ≤ n) :
    (invert_wstack n vs tmpl gcfcf).2 = (invert_2d vs tmpl gcfcf).2 ∧
      (invert_timeslice n pad vs tmpl gcfcf).2 = (invert_2d vs tmpl gcfcf).2 := by
  constructor
  · show ((((splitSlices n (sortByW vs)).map
        (fun part => (wRepresentative part, invert_2d part tmpl gcfcf))).map
          (fun p => p.2.2)).foldl (· + ·) 0) = _
    rw [List.map_map, foldl_add_eq_sum]
    have hm : ((fun p : ℚ × (Image × ℚ) => p.2.2) ∘
        fun part => (wRepresentative part, invert_2d part tmpl gcfcf)) =
        fun part => sumwtOf tmpl.cellsize part := by
      funext part
      exact invert_2d_sumwt part tmpl gcfcf
    rw [hm, sumwtOf_flatten, splitSlices_flatten n hn, invert_2d_sumwt]
    exact sumwtOf_perm _ (sortByW_perm vs)
  · show ((((splitSlices n (sortByTime vs)).map
        (fun part => invert_2d part (paddedTemplate pad tmpl) gcfcf)).map
          (fun p => p.2)).foldl (· + ·) 0) = _
    rw [List.map_map, foldl_add_eq_sum]
    have hm : ((fun p : Image × ℚ => p.2) ∘
        fun part => invert_2d part (paddedTemplate pad tmpl) gcfcf) =
        fun part => sumwtOf tmpl.cellsize part := by
      funext part
      exact invert_2d_sumwt part (paddedTemplate pad tmpl) gcfcf
    rw [hm, sumwtOf_flatten, splitSlices_flatten n hn, invert_2d_sumwt]
    exact sumwtOf_perm _ (sortByTime_perm vs)

/-- Concrete instance of claim C3: two w-stacking slices and two timeslices of
a two-sample set reproduce the plain sum of weights. -/
theorem partition_sumwt_invariance_witness :
    1 ≤ 2 ∧
      ((invert_wstack 2 [demoSample, outSample] demoTemplate none).2 =
          (invert_2d [demoSample, outSample] demoTemplate none).2 ∧
        (invert_timeslice 2 2 [demoSample, outSample] demoTemplate none).2 =
          (invert_2d [demoSample, outSample] demoTemplate none).2) :=
  ⟨by decide,
    partition_sumwt_invariance 2 2 [demoSample, outSample] demoTemplate none (by decide)⟩

theorem adapter_tag_key_ge {α : Type} (l : List α) (k : ℕ) (b : ℕ × α) :
    b ∈ adapter_tag k l → k ≤ b.1 := by
  induction l generalizing k with
  | nil => intro h; cases h
  | cons x xs ih =>
      intro h
      simp only [adapter_tag] at h
      rcases List.mem_cons.mp h with h | h
      · subst h
        exact Nat.le_refl k
      · exact Nat.le_of_succ_le (ih (k + 1) h)

theorem adapter_tag_key_inj {α : Type} (l : List α) (k : ℕ) (b1 b2 : ℕ × α)
    (hk : b1.1 = b2.1) :
    b1 ∈ adapter_tag k l → b2 ∈ adapter_tag k l → b1 = b2 := by
  induction l generalizing k with
  | nil => intro h1; cases h1
  | cons x xs ih =>
      intro h1 h2
      simp only [adapter_tag] at h1 h2
      rcases List.mem_cons.mp h1 with h1 | h1 <;> rcases List.mem_cons.mp h2 with h2 | h2
      · rw [h1, h2]
      · subst h1
        have hge : k + 1 ≤ b2.1 := adapter_tag_key_ge xs (k + 1) b2 h2
        have hk' : k = b2.1 := hk
        omega
      · subst h2
        have hge : k + 1 ≤ b1.1 := adapter_tag_key_ge xs (k + 1) b1 h1
        have hk' : b1.1 = k := hk
        omega
      · exact ih (k + 1) h1 h2

theorem adapter_tag_mem_get {α : Type} (l : List α) (k i : ℕ) (h : i < l.length) :
    (k + i, l.get ⟨i, h⟩) ∈ adapter_tag k l := by
  induction l generalizing k i with
  | nil => cases h
  | cons x xs ih =>
      match i with
      | 0 => exact List.mem_cons_self _ _
      | j + 1 =>
          refine List.mem_cons_of_mem _ ?_
          have := ih (k + 1) j (Nat.lt_of_succ_lt_succ h)
          have harith : k + 1 + j = k + (j + 1) := by omega
          rw [harith] at this
          exact this

theorem find_of_unique {β : Type} (l : List β) (p : β → Bool) (a : β)
    (hp : p a = true) :
    a ∈ l → (∀ b ∈ l, p b = true → b = a) → l.find? p = some a := by
  induction l with
  | nil => intro ha; cases ha
  | cons x xs ih =>
      intro ha hu
      by_cases hx : p x = true
      · rw [List.find?_cons_of_pos _ hx]
        exact congrArg some (hu x (List.mem_cons_self _ _) hx)
      · rw [List.find?_cons_of_neg _ (by simpa using hx)]
        rcases List.mem_cons.mp ha with ha | ha
        · subst ha
          exact absurd hp hx
        · exact ih ha (fun b hb => hu b (List.mem_cons_of_mem _ hb))

theorem filterMap_range_of_get {α : Type} (l : List α) (f : ℕ → Option α)
    (h : ∀ i (hi : i < l.length), f i = some (l.get ⟨i, hi⟩)) :
    (List.range l.length).filterMap f = l := by
  induction l generalizing f with
  | nil => rfl
  | cons x xs ih =>
      rw [List.length_cons, List.range_succ_eq_map, List.filterMap_cons,
        List.filterMap_map]
      rw [h 0 (Nat.succ_pos _)]
      show x :: (List.range xs.length).filterMap (f ∘ Nat.succ) = x :: xs
      rw [ih (f ∘ Nat.succ) (fun i hi => h (i + 1) (Nat.succ_lt_succ hi))]

theorem adapter_collect_restores_order {α : Type} (l : List α)
    (completed : List (ℕ × α)) (h : completed.Perm (adapter_tag 0 l)) :
    adapter_collect l.length completed = l := by
  rw [adapter_collect]
  apply filterMap_range_of_get
  intro i hi
  have hfind : completed.find? (fun r => r.1 == i) = some (i, l.get ⟨i, hi⟩) := by
    refine find_of_unique completed _ _ (by simp) ?_ ?_
    · exact h.mem_iff.2 (by simpa using adapter_tag_mem_get l 0 i hi)
    · intro b hb hpb
      have hb' : b ∈ adapter_tag 0 l := h.mem_iff.1 hb
      have hkey : b.1 = (i, l.get ⟨i, hi⟩).1 := by simpa using hpb
      exact adapter_tag_key_inj l 0 b _ hkey hb'
        (h.mem_iff.1 (h.mem_iff.2 (by simpa using adapter_tag_mem_get l 0 i hi)))
  rw [hfind]
  rfl

/-- Claim C4: the order in which partition computations complete does not
affect the final combined image — the Task Dispatch Adapter reorders collected
results by each unit's original partition index, not by arrival order, so any
completion order that is a permutation of the tagged submissions is restored
to submission order before the Accumulator combines it. -/
theorem dispatch_order_independence (tmpl : ImageTemplate)
    (partials : List (ℚ × (Image × ℚ))) (completed : List (ℕ × (ℚ × (Image × ℚ))))
    (h : completed.Perm (adapter_tag 0 partials)) :
    adapter_collect partials.length completed = partials ∧
      combine_wstack tmpl (adapter_collect partials.length completed) =
        combine_wstack tmpl partials := by
  have heq := adapter_collect_restores_order partials completed h
  exact ⟨heq, by rw [heq]⟩

/-- Concrete instance of claim C4: two tagged w-stacking partials delivered in
reversed completion order are restored to submission order and combine to the
same result. -/
theorem dispatch_order_independence_witness :
    demoCompleted.Perm (adapter_tag 0 demoPartials) ∧
      (adapter_collect demoPartials.length demoCompleted = demoPartials ∧
        combine_wstack demoTemplate (adapter_collect demoPartials.length demoCompleted) =
          combine_wstack demoTemplate demoPartials) := by
  have hperm : demoCompleted.Perm (adapter_tag 0 demoPartials) := List.Perm.swap _ _ _
  exact ⟨hperm, dispatch_order_independence demoTemplate demoPartials demoCompleted hperm⟩

theorem foldl_preserves {α β : Type} (P : α → Prop) (f : α → β → α) (l : List β)
    (a : α) (h0 : P a) (hstep : ∀ x b, P x → P (f x b)) : P (l.foldl f a) := by
  induction l generalizing a with
  | nil => exact h0
  | cons b l ih => exact ih (f a b) (hstep a b h0)

theorem addAt_preserves (img : Image) (x y : ℕ) (q : ℚ) (tmpl : ImageTemplate)
    (h : img.npixel = tmpl.npixel ∧ img.cellsize = tmpl.cellsize ∧
      ∀ a b, (tmpl.npixel ≤ a ∨ tmpl.npixel ≤ b) → img.data a b = 0) :
    (img.addAt x y q).npixel = tmpl.npixel ∧
      (img.addAt x y q).cellsize = tmpl.cellsize ∧
      ∀ a b, (tmpl.npixel ≤ a ∨ tmpl.npixel ≤ b) → (img.addAt x y q).data a b = 0 := by
  refine ⟨h.1, h.2.1, ?_⟩
  intro a b hab
  show (if a = x ∧ b = y ∧ x < img.npixel ∧ y < img.npixel
    then img.data a b + q else img.data a b) = 0
  by_cases hc : a = x ∧ b = y ∧ x < img.npixel ∧ y < img.npixel
  · exfalso
    obtain ⟨rfl, rfl, hx, hy⟩ := hc
    rw [h.1] at hx hy
    omega
  · rw [if_neg hc]
    exact h.2.2 a b hab

theorem gridOne_preserves (gcfcf : Option KernelBank) (img : Image) (s : VisSample)
    (tmpl : ImageTemplate)
    (h : img.npixel = tmpl.npixel ∧ img.cellsize = tmpl.cellsize ∧
      ∀ a b, (tmpl.npixel ≤ a ∨ tmpl.npixel ≤ b) → img.data a b = 0) :
    (gridOne gcfcf img s).npixel = tmpl.npixel ∧
      (gridOne gcfcf img s).cellsize = tmpl.cellsize ∧
      ∀ a b, (tmpl.npixel ≤ a ∨ tmpl.npixel ≤ b) → (gridOne gcfcf img s).data a b = 0 := by
  cases gcfcf with
  | none => exact addAt_preserves img _ _ _ tmpl h
  | some bank =>
      refine foldl_preserves
        (fun i : Image => i.npixel = tmpl.npixel ∧ i.cellsize = tmpl.cellsize ∧
          ∀ a b, (tmpl.npixel ≤ a ∨ tmpl.npixel ≤ b) → i.data a b = 0)
        _ _ _ h ?_
      intro x dx hx
      refine foldl_preserves
        (fun i : Image => i.npixel = tmpl.npixel ∧ i.cellsize = tmpl.cellsize ∧
          ∀ a b, (tmpl.npixel ≤ a ∨ tmpl.npixel ≤ b) → i.data a b = 0)
        _ _ _ hx ?_
      intro x2 dy hx2
      exact addAt_preserves x2 _ _ _ tmpl hx2

theorem invert_2d_image_invariant (vs : List VisSample) (tmpl : ImageTemplate)
    (gcfcf : Option KernelBank) :
    (invert_2d vs tmpl gcfcf).1.npixel = tmpl.npixel ∧
      (invert_2d vs tmpl gcfcf).1.cellsize = tmpl.cellsize ∧
      ∀ a b, (tmpl.npixel ≤ a ∨ tmpl.npixel ≤ b) →
        (invert_2d vs tmpl gcfcf).1.data a b = 0 := by
  rw [invert_2d]
  refine foldl_preserves
    (fun acc : Image × ℚ => acc.1.npixel = tmpl.npixel ∧ acc.1.cellsize = tmpl.cellsize ∧
      ∀ a b, (tmpl.npixel ≤ a ∨ tmpl.npixel ≤ b) → acc.1.data a b = 0)
    _ _ _ ⟨rfl, rfl, fun _ _ _ => rfl⟩ ?_
  intro acc s hacc
  by_cases hs : inGrid tmpl.cellsize s = true
  · rw [if_pos hs]
    exact gridOne_preserves gcfcf acc.1 s tmpl hacc
  · rw [if_neg hs]
    exact hacc

theorem placeFacet_full (tmpl : ImageTemplate) (p : Image)
    (hn : p.npixel = tmpl.npixel) (hc : p.cellsize = tmpl.cellsize)
    (hz : ∀ a b, (tmpl.npixel ≤ a ∨ tmpl.npixel ≤ b) → p.data a b = 0) :
    placeFacet (zeroImage tmpl) ⟨0, 0, tmpl.npixel⟩ p = p := by
  refine Image.ext ?_ ?_ ?_
  · exact hn.symm
  · exact hc.symm
  · funext x y
    show (if inFacet ⟨0, 0, tmpl.npixel⟩ x y
      then p.data (x - 0 * tmpl.npixel) (y - 0 * tmpl.npixel)
      else (zeroImage tmpl).data x y) = p.data x y
    by_cases hf : inFacet ⟨0, 0, tmpl.npixel⟩ x y
    · rw [if_pos hf]
      simp
    · rw [if_neg hf]
      have hout : tmpl.npixel ≤ x ∨ tmpl.npixel ≤ y := by
        simp only [inFacet] at hf
        omega
      exact (hz x y hout).symm

/-- Claim C2: invert with the facets strategy at facet count 1 produces an
image identical to invert with the plain 2-D strategy on the same inputs —
exactly identical in this exact-arithmetic model, hence in particular within
floating-point tolerance. -/
theorem facet_reassembly_equivalence (vs : List VisSample) (tmpl : ImageTemplate)
    (gcfcf : Option KernelBank) :
    invert_facets 1 vs tmpl gcfcf =
      .ok ((invert_2d vs tmpl gcfcf).1, [(invert_2d vs tmpl gcfcf).2]) := by
  have hrange : List.range 1 = [0] := rfl
  have hpart : facet_partitions 1 tmpl = .ok [⟨0, 0, tmpl.npixel⟩] := by
    rw [facet_partitions, if_pos (one_dvd _), hrange]
    simp [Nat.div_one]
  rw [invert_facets, hpart]
  show Except.ok (combine_facets tmpl
    ([(⟨0, 0, tmpl.npixel⟩ : FacetDesc)].map
      (fun d => (d, invert_2d vs (facetSubTemplate d tmpl) gcfcf)))) = _
  congr 1
  have hsub : facetSubTemplate ⟨0, 0, tmpl.npixel⟩ tmpl = tmpl := rfl
  rw [List.map_cons, List.map_nil, hsub, combine_facets]
  obtain ⟨hn, hc, hz⟩ := invert_2d_image_invariant vs tmpl gcfcf
  exact Prod.ext (placeFacet_full tmpl _ hn hc hz) rfl
